import Mathlib

/-!
Verification of `scripts/find_version_empty.py`: a diagnostic script that
parses a JSON document (`package-lock.json`), runs a shallow pre-pass over the
top-level `packages` member, recursively walks the whole tree collecting the
paths of objects whose `version` member is the empty string, and prints the
collected paths followed by a `total` line.

The embedding works on the parsed JSON value (file reading and JSON parsing
happen before any of the script's own logic).  Python runtime errors raised by
the pre-pass on unusual document shapes (`TypeError` from `'packages' in data`
or `data['packages']`, `AttributeError` from `.items()` or `.get`) are
modelled with `Except`; the recursive walk and the reporter are total.
-/

namespace FindVersionEmpty

/-- A parsed JSON value.  Objects are insertion-ordered association lists
(CPython's `json.loads` produces insertion-ordered `dict`s with unique keys,
so lookup by first matching key agrees with Python dict lookup). -/
inductive Json where
  | obj  : List (String × Json) → Json
  | arr  : List Json → Json
  | str  : String → Json
  | num  : Int → Json
  | bool : Bool → Json
  | null : Json

/-- Python `d.get(key, None)` on an insertion-ordered dict: the value at the
first (hence, keys being unique, the only) matching key, or `none`. -/
def dictGet : List (String × Json) → String → Option Json
  | [], _ => none
  | (k, v) :: rest, key => if k = key then some v else dictGet rest key

/-- Python `x == ''` applied to the result of `d.get('version', None)`:
true exactly when the lookup found a string equal to `''` (in Python,
`None == ''` is false and every non-string JSON value compares unequal
to `''`). -/
def isEmptyStr : Option Json → Bool
  | some (Json.str s) => s == ""
  | _ => false

/-- The errors the script can raise after a successful parse: `TypeError`
(from `'packages' in data` on a non-container, or subscripting a
non-dict), `AttributeError` (from `.items()` or `.get` on a non-dict) and
`KeyError` (from `d[key]` when the key is absent; unreachable here because
the subscript is guarded by the `in` test). -/
inductive PyError where
  | typeError
  | attributeError
  | keyError
deriving DecidableEq

/-- Python `'packages' in data` (line 7).  Dict: key membership; list:
membership of the string among the elements (`==` against each element is
true only for the equal string); string: substring test; any other value
raises `TypeError` (not iterable). -/
def inTest (data : Json) (key : String) : Except PyError Bool :=
  match data with
  | Json.obj ms => Except.ok (dictGet ms key).isSome
  | Json.arr es =>
      Except.ok (es.any fun e =>
        match e with
        | Json.str s => s == key
        | _ => false)
  | Json.str s => Except.ok ((s.splitOn key).length != 1)
  | _ => Except.error PyError.typeError

/-- Python `data[key]` for a string key: dict lookup (`KeyError` when
absent); every non-dict value raises `TypeError` under a string subscript. -/
def getItem (data : Json) (key : String) : Except PyError Json :=
  match data with
  | Json.obj ms =>
      match dictGet ms key with
      | some v => Except.ok v
      | none => Except.error PyError.keyError
  | _ => Except.error PyError.typeError

/-- Python `x.items()`: only dicts have `.items`; anything else raises
`AttributeError`. -/
def itemsOf : Json → Except PyError (List (String × Json))
  | Json.obj ms => Except.ok ms
  | _ => Except.error PyError.attributeError

/-- Python `pkg.get('version', None)` (line 9): only dicts have `.get`;
anything else raises `AttributeError`. -/
def pyGet (pkg : Json) (key : String) : Except PyError (Option Json) :=
  match pkg with
  | Json.obj ms => Except.ok (dictGet ms key)
  | _ => Except.error PyError.attributeError

/-- The loop body of the pre-pass (lines 8-10): for each member `(key, pkg)`
of `data['packages']`, append `packages[key]` to the accumulator when
`pkg.get('version', None) == ''`; a non-dict member raises
`AttributeError` at the `.get` call and aborts the whole program. -/
def prePassMembers : List (String × Json) → List String → Except PyError (List String)
  | [], acc => Except.ok acc
  | (k, pkg) :: rest, acc =>
      match pyGet pkg "version" with
      | Except.error e => Except.error e
      | Except.ok v =>
          prePassMembers rest
            (if isEmptyStr v then acc ++ ["packages[" ++ k ++ "]"] else acc)

/-- The shallow `packages` pre-pass (lines 7-10), starting from the empty
`EMPTY` list. -/
def prePass (data : Json) : Except PyError (List String) :=
  match inTest data "packages" with
  | Except.error e => Except.error e
  | Except.ok false => Except.ok []
  | Except.ok true =>
      match getItem data "packages" with
      | Except.error e => Except.error e
      | Except.ok pkgs =>
          match itemsOf pkgs with
          | Except.error e => Except.error e
          | Except.ok pms => prePassMembers pms []

mutual
/-- The recursive `walk(obj, path)` of the script (lines 12-20), with the
global `EMPTY` list made an explicit accumulator: flag the object if its
`version` member is `''`, then recurse into its members in key order
(path + `.` + key); recurse into list elements in index order
(path + `[` + index + `]`); leaves do nothing. -/
def walk (j : Json) (path : String) (acc : List String) : List String :=
  match j with
  | Json.obj ms =>
      walkMembers ms path
        (if isEmptyStr (dictGet ms "version") then acc ++ [path] else acc)
  | Json.arr es => walkElems es path 0 acc
  | _ => acc

/-- Models `for k,v in obj.items(): walk(v, f"{path}.{k}")` (lines 16-17). -/
def walkMembers (ms : List (String × Json)) (path : String) (acc : List String) :
    List String :=
  match ms with
  | [] => acc
  | (k, v) :: rest => walkMembers rest path (walk v (path ++ "." ++ k) acc)

/-- Models `for idx,v in enumerate(obj): walk(v, f"{path}[{idx}]")`
(lines 19-20). -/
def walkElems (es : List Json) (path : String) (idx : Nat) (acc : List String) :
    List String :=
  match es with
  | [] => acc
  | v :: rest =>
      walkElems rest path (idx + 1) (walk v (path ++ "[" ++ toString idx ++ "]") acc)
end

/-- The reporter (lines 23-25): each collected path on its own line, then
the line `total <count>`. -/
def report (empty : List String) : List String :=
  empty ++ ["total " ++ toString empty.length]

/-- The whole script after a successful parse: pre-pass into `EMPTY`, then
`walk(data)` appending to the same list, then the report.  The result is the
sequence of printed lines, or the Python error that aborted the run. -/
def run (data : Json) : Except PyError (List String) :=
  match prePass data with
  | Except.error e => Except.error e
  | Except.ok pre => Except.ok (report (walk data "root" pre))

/-! ### Specification-side definitions

These transcribe the spec's wording, to be compared with the definitions
above (which transcribe the source). -/

/-- Modelled from the spec's wording: the node "has a member named `version`
whose value is exactly the empty string". -/
def flagsEmptyVersion (ms : List (String × Json)) : Bool :=
  match dictGet ms "version" with
  | some (Json.str s) => decide (s = "")
  | _ => false

mutual
/-- Modelled from the spec's wording of the walker algorithm (pre-order
depth-first traversal): the flagged paths contributed by a node, flag first,
then members in key order, then (for lists) elements in index order. -/
def specWalk (j : Json) (path : String) : List String :=
  match j with
  | Json.obj ms =>
      (if flagsEmptyVersion ms then [path] else []) ++ specWalkMembers ms path
  | Json.arr es => specWalkElems es path 0
  | _ => []

/-- Flagged paths contributed by an object's members, in key order. -/
def specWalkMembers (ms : List (String × Json)) (path : String) : List String :=
  match ms with
  | [] => []
  | (k, v) :: rest => specWalk v (path ++ "." ++ k) ++ specWalkMembers rest path

/-- Flagged paths contributed by a list's elements, in index order. -/
def specWalkElems (es : List Json) (path : String) (idx : Nat) : List String :=
  match es with
  | [] => []
  | v :: rest =>
      specWalk v (path ++ "[" ++ toString idx ++ "]") ++ specWalkElems rest path (idx + 1)
end

/-- Modelled from the spec's wording of the pre-pass: one record
`packages[<key>]` for each direct member of `packages` whose value is an
object with a `version` field equal to the empty string. -/
def prePassSpec (pms : List (String × Json)) : List String :=
  pms.filterMap fun kv =>
    match kv.2 with
    | Json.obj pms2 =>
        if flagsEmptyVersion pms2 then some ("packages[" ++ kv.1 ++ "]") else none
    | _ => none

/-- Whether the value is a JSON object (Python dict). -/
def isObjB : Json → Bool
  | Json.obj _ => true
  | _ => false

mutual
/-- Whether the document contains, anywhere (the root included), an object
node whose `version` member is the empty string. -/
def hasEmptyVersion : Json → Bool
  | Json.obj ms => isEmptyStr (dictGet ms "version") || hasEmptyVersionMembers ms
  | Json.arr es => hasEmptyVersionElems es
  | _ => false

/-- `hasEmptyVersion` over the values of an object's members. -/
def hasEmptyVersionMembers : List (String × Json) → Bool
  | [] => false
  | (_, v) :: rest => hasEmptyVersion v || hasEmptyVersionMembers rest

/-- `hasEmptyVersion` over a list's elements. -/
def hasEmptyVersionElems : List Json → Bool
  | [] => false
  | v :: rest => hasEmptyVersion v || hasEmptyVersionElems rest
end

/-- The document shapes on which the pre-pass raises no Python error: a root
object whose `packages` member, when present, is an object all of whose
members are objects; a root list with no element equal to the string
`packages`; a root string not containing `packages` as a substring.  Every
other valid JSON root (numbers, booleans, `null`, or the shapes above
violated) aborts the script with `TypeError` or `AttributeError`. -/
def prePassOk (data : Json) : Bool :=
  match data with
  | Json.obj ms =>
      match dictGet ms "packages" with
      | none => true
      | some (Json.obj pms) => pms.all fun kv => isObjB kv.2
      | some _ => false
  | Json.arr es =>
      !(es.any fun e =>
        match e with
        | Json.str s => s == "packages"
        | _ => false)
  | Json.str s => (s.splitOn "packages").length == 1
  | _ => false

mutual
/-- Fuel-indexed variant of `walk`, used to state termination: one unit of
fuel is consumed for each level of descent, and `none` is returned when the
fuel runs out. -/
def walkFuel : Nat → Json → String → List String → Option (List String)
  | 0, _, _, _ => none
  | fuel + 1, Json.obj ms, path, acc =>
      walkFuelMembers fuel ms path
        (if isEmptyStr (dictGet ms "version") then acc ++ [path] else acc)
  | fuel + 1, Json.arr es, path, acc => walkFuelElems fuel es path 0 acc
  | _ + 1, _, _, acc => some acc

/-- Fuel-indexed variant of `walkMembers`. -/
def walkFuelMembers : Nat → List (String × Json) → String → List String →
    Option (List String)
  | _, [], _, acc => some acc
  | fuel, (k, v) :: rest, path, acc =>
      match walkFuel fuel v (path ++ "." ++ k) acc with
      | none => none
      | some acc2 => walkFuelMembers fuel rest path acc2

/-- Fuel-indexed variant of `walkElems`. -/
def walkFuelElems : Nat → List Json → String → Nat → List String →
    Option (List String)
  | _, [], _, _, acc => some acc
  | fuel, v :: rest, path, idx, acc =>
      match walkFuel fuel v (path ++ "[" ++ toString idx ++ "]") acc with
      | none => none
      | some acc2 => walkFuelElems fuel rest path (idx + 1) acc2
end

/-! ### Helper lemmas -/

/-- The source's flag test (`obj.get('version', None) == ''`) agrees with the
spec's exact-match condition. -/
theorem isEmptyStr_eq_flags (ms : List (String × Json)) :
    isEmptyStr (dictGet ms "version") = flagsEmptyVersion ms := by
  unfold flagsEmptyVersion
  cases h : dictGet ms "version" with
  | none => simp [isEmptyStr]
  | some v =>
    cases v <;> simp [isEmptyStr]
    next s => by_cases hs : s = "" <;> simp [hs]

/-- The flag test succeeds exactly on the empty-string value. -/
theorem isEmptyStr_iff (o : Option Json) :
    isEmptyStr o = true ↔ o = some (Json.str "") := by
  cases o with
  | none => simp [isEmptyStr]
  | some v => cases v <;> simp [isEmptyStr]

/-- The spec-side flag condition, as a propositional equality. -/
theorem flags_iff (ms : List (String × Json)) :
    flagsEmptyVersion ms = true ↔ dictGet ms "version" = some (Json.str "") := by
  rw [← isEmptyStr_eq_flags]
  exact isEmptyStr_iff _

mutual
/-- The accumulator-passing walk refines the spec-side pre-order list: the
walk extends the accumulator by exactly the spec's flagged paths, in order. -/
theorem walk_eq_spec : ∀ (j : Json) (path : String) (acc : List String),
    walk j path acc = acc ++ specWalk j path
  | Json.obj ms, path, acc => by
      rw [walk, specWalk, walkMembers_eq_spec ms, isEmptyStr_eq_flags]
      cases flagsEmptyVersion ms <;> simp
  | Json.arr es, path, acc => by
      rw [walk, specWalk, walkElems_eq_spec es]
  | Json.str _, _, acc => (List.append_nil acc).symm
  | Json.num _, _, acc => (List.append_nil acc).symm
  | Json.bool _, _, acc => (List.append_nil acc).symm
  | Json.null, _, acc => (List.append_nil acc).symm

/-- Member loop of the refinement. -/
theorem walkMembers_eq_spec : ∀ (ms : List (String × Json)) (path : String)
    (acc : List String), walkMembers ms path acc = acc ++ specWalkMembers ms path
  | [], path, acc => by rw [walkMembers, specWalkMembers]; simp
  | (k, v) :: rest, path, acc => by
      rw [walkMembers, specWalkMembers, walkMembers_eq_spec rest,
        walk_eq_spec v, List.append_assoc]

/-- Element loop of the refinement. -/
theorem walkElems_eq_spec : ∀ (es : List Json) (path : String) (idx : Nat)
    (acc : List String), walkElems es path idx acc = acc ++ specWalkElems es path idx
  | [], path, idx, acc => by rw [walkElems, specWalkElems]; simp
  | v :: rest, path, idx, acc => by
      rw [walkElems, specWalkElems, walkElems_eq_spec rest,
        walk_eq_spec v, List.append_assoc]
end

mutual
/-- A document with no empty-`version` object anywhere contributes no
flagged paths. -/
theorem specWalk_nil : ∀ (j : Json), hasEmptyVersion j = false →
    ∀ path, specWalk j path = []
  | Json.obj ms, h, path => by
      rw [hasEmptyVersion] at h
      rw [Bool.or_eq_false_iff] at h
      rw [specWalk, ← isEmptyStr_eq_flags, h.1,
        specWalkMembers_nil ms h.2]
      simp
  | Json.arr es, h, path => by
      rw [hasEmptyVersion] at h
      rw [specWalk, specWalkElems_nil es h]
  | Json.str _, _, _ => rfl
  | Json.num _, _, _ => rfl
  | Json.bool _, _, _ => rfl
  | Json.null, _, _ => rfl

/-- Member loop of `specWalk_nil`. -/
theorem specWalkMembers_nil : ∀ (ms : List (String × Json)),
    hasEmptyVersionMembers ms = false → ∀ path, specWalkMembers ms path = []
  | [], _, _ => rfl
  | (k, v) :: rest, h, path => by
      rw [hasEmptyVersionMembers] at h
      rw [Bool.or_eq_false_iff] at h
      rw [specWalkMembers, specWalk_nil v h.1, specWalkMembers_nil rest h.2]
      rfl

/-- Element loop of `specWalk_nil`. -/
theorem specWalkElems_nil : ∀ (es : List Json),
    hasEmptyVersionElems es = false → ∀ path idx, specWalkElems es path idx = []
  | [], _, _, _ => rfl
  | v :: rest, h, path, idx => by
      rw [hasEmptyVersionElems] at h
      rw [Bool.or_eq_false_iff] at h
      rw [specWalkElems, specWalk_nil v h.1, specWalkElems_nil rest h.2]
      rfl
end

/-- A successful dict lookup returns the value of a stored member. -/
theorem dictGet_mem : ∀ {ms : List (String × Json)} {key : String} {v : Json},
    dictGet ms key = some v → (key, v) ∈ ms
  | [], _, _, h => by simp [dictGet] at h
  | (k, w) :: rest, key, v, h => by
      rw [dictGet] at h
      by_cases hk : k = key
      · rw [if_pos hk] at h
        cases h
        subst hk
        exact List.mem_cons_self _ _
      · rw [if_neg hk] at h
        exact List.mem_cons_of_mem _ (dictGet_mem h)

/-- If no member value contains an empty-`version` object, neither does any
value found by lookup. -/
theorem hasEmptyVersion_of_mem : ∀ {ms : List (String × Json)} {k : String}
    {v : Json}, hasEmptyVersionMembers ms = false → (k, v) ∈ ms →
    hasEmptyVersion v = false
  | (k0, v0) :: rest, k, v, h, hmem => by
      rw [hasEmptyVersionMembers] at h
      rw [Bool.or_eq_false_iff] at h
      rcases List.mem_cons.1 hmem with heq | htail
      · cases heq
        exact h.1
      · exact hasEmptyVersion_of_mem h.2 htail

/-- Pre-pass loop, success case: when every member is a dict, it extends the
accumulator by exactly the spec-described records, in member order. -/
theorem prePassMembers_eq_spec : ∀ (pms : List (String × Json)),
    (pms.all fun kv => isObjB kv.2) = true → ∀ acc,
    prePassMembers pms acc = Except.ok (acc ++ prePassSpec pms)
  | [], _, acc => by simp [prePassMembers, prePassSpec]
  | (k, pkg) :: rest, h, acc => by
      rw [List.all_cons, Bool.and_eq_true] at h
      match pkg, h.1 with
      | Json.obj pms2, _ =>
        have step : prePassMembers ((k, Json.obj pms2) :: rest) acc =
            prePassMembers rest
              (if isEmptyStr (dictGet pms2 "version") then
                acc ++ ["packages[" ++ k ++ "]"] else acc) := rfl
        have spec_step : prePassSpec ((k, Json.obj pms2) :: rest) =
            (if flagsEmptyVersion pms2 then ["packages[" ++ k ++ "]"] else [])
              ++ prePassSpec rest := by
          cases hf : flagsEmptyVersion pms2 <;>
            simp [prePassSpec, List.filterMap_cons, hf]
        rw [step, prePassMembers_eq_spec rest h.2, spec_step, isEmptyStr_eq_flags]
        cases flagsEmptyVersion pms2 <;> simp

/-- Pre-pass loop, failure shape: it succeeds (on any accumulator) if and
only if every member value is a dict; a non-dict member raises
`AttributeError`. -/
theorem prePassMembers_ok_iff : ∀ (pms : List (String × Json)) (acc : List String),
    (∃ l, prePassMembers pms acc = Except.ok l) ↔
      (pms.all fun kv => isObjB kv.2) = true
  | [], acc => by simp [prePassMembers]
  | (k, pkg) :: rest, acc => by
      rw [List.all_cons, Bool.and_eq_true]
      cases pkg with
      | obj pms2 =>
        rw [prePassMembers, pyGet]
        simp only [isObjB, true_and]
        exact prePassMembers_ok_iff rest _
      | arr es => simp [prePassMembers, pyGet, isObjB]
      | str s => simp [prePassMembers, pyGet, isObjB]
      | num n => simp [prePassMembers, pyGet, isObjB]
      | bool b => simp [prePassMembers, pyGet, isObjB]
      | null => simp [prePassMembers, pyGet, isObjB]

/-- Pre-pass loop on a record-free member list: the accumulator is returned
unchanged when the loop succeeds. -/
theorem prePassMembers_nil : ∀ (pms : List (String × Json)),
    hasEmptyVersionMembers pms = false → ∀ acc l,
    prePassMembers pms acc = Except.ok l → l = acc
  | [], _, acc, l, h => by
      rw [prePassMembers] at h
      cases h
      rfl
  | (k, pkg) :: rest, hne, acc, l, h => by
      rw [hasEmptyVersionMembers, Bool.or_eq_false_iff] at hne
      cases pkg with
      | obj pms2 =>
        have hflag : isEmptyStr (dictGet pms2 "version") = false := by
          have h1 := hne.1
          rw [hasEmptyVersion, Bool.or_eq_false_iff] at h1
          exact h1.1
        have step : prePassMembers ((k, Json.obj pms2) :: rest) acc =
            prePassMembers rest
              (if isEmptyStr (dictGet pms2 "version") then
                acc ++ ["packages[" ++ k ++ "]"] else acc) := rfl
        rw [step, hflag, if_neg Bool.false_ne_true] at h
        exact prePassMembers_nil rest hne.2 acc l h
      | arr es => exact Except.noConfusion h
      | str s => exact Except.noConfusion h
      | num n => exact Except.noConfusion h
      | bool b => exact Except.noConfusion h
      | null => exact Except.noConfusion h

/-- Reduction of the pre-pass at an object root. -/
theorem prePass_obj (ms : List (String × Json)) :
    prePass (Json.obj ms) =
      match dictGet ms "packages" with
      | none => Except.ok []
      | some (Json.obj pms) => prePassMembers pms []
      | some _ => Except.error PyError.attributeError := by
  cases hg : dictGet ms "packages" with
  | none => simp [prePass, inTest, getItem, hg]
  | some v => cases v <;> simp [prePass, inTest, getItem, itemsOf, hg]

/-- Reduction of the pre-pass at a list root. -/
theorem prePass_arr (es : List Json) :
    prePass (Json.arr es) =
      if (es.any fun e =>
          match e with
          | Json.str s => s == "packages"
          | _ => false) then
        Except.error PyError.typeError
      else Except.ok [] := by
  cases hb : (es.any fun e =>
      match e with
      | Json.str s => s == "packages"
      | _ => false) <;>
    simp [prePass, inTest, getItem, hb]

/-- Reduction of the pre-pass at a string root. -/
theorem prePass_str (s : String) :
    prePass (Json.str s) =
      if (s.splitOn "packages").length != 1 then Except.error PyError.typeError
      else Except.ok [] := by
  cases hb : ((s.splitOn "packages").length != 1) <;>
    simp [prePass, inTest, getItem, hb]

/-- When the document has no empty-`version` object anywhere, a successful
pre-pass records nothing. -/
theorem prePass_nil (data : Json) (h : hasEmptyVersion data = false) :
    ∀ l, prePass data = Except.ok l → l = [] := by
  intro l hl
  cases data with
  | obj ms =>
    rw [hasEmptyVersion, Bool.or_eq_false_iff] at h
    rw [prePass_obj] at hl
    cases hg : dictGet ms "packages" with
    | none =>
      rw [hg] at hl
      cases hl
      rfl
    | some v =>
      rw [hg] at hl
      cases v with
      | obj pms =>
        have hv : hasEmptyVersion (Json.obj pms) = false :=
          hasEmptyVersion_of_mem h.2 (dictGet_mem hg)
        rw [hasEmptyVersion, Bool.or_eq_false_iff] at hv
        exact prePassMembers_nil pms hv.2 [] l hl
      | arr es => exact Except.noConfusion hl
      | str s => exact Except.noConfusion hl
      | num n => exact Except.noConfusion hl
      | bool b => exact Except.noConfusion hl
      | null => exact Except.noConfusion hl
  | arr es =>
    rw [prePass_arr] at hl
    by_cases hb : (es.any fun e =>
        match e with
        | Json.str s => s == "packages"
        | _ => false) = true
    · rw [if_pos hb] at hl
      exact Except.noConfusion hl
    · rw [if_neg hb] at hl
      cases hl
      rfl
  | str s =>
    rw [prePass_str] at hl
    by_cases hb : ((s.splitOn "packages").length != 1) = true
    · rw [if_pos hb] at hl
      exact Except.noConfusion hl
    · rw [if_neg hb] at hl
      cases hl
      rfl
  | num n => exact Except.noConfusion hl
  | bool b => exact Except.noConfusion hl
  | null => exact Except.noConfusion hl

/-- The run succeeds exactly when the pre-pass does: the walk and the report
are total. -/
theorem run_ok_iff (data : Json) :
    (∃ out, run data = Except.ok out) ↔ (∃ l, prePass data = Except.ok l) := by
  rw [run]
  cases hp : prePass data <;> simp

/-- Unfolding a successful run. -/
theorem run_ok_elim {data : Json} {out : List String}
    (h : run data = Except.ok out) :
    ∃ pre, prePass data = Except.ok pre ∧ out = report (walk data "root" pre) := by
  rw [run] at h
  cases hp : prePass data with
  | error e => rw [hp] at h; exact Except.noConfusion h
  | ok pre =>
    rw [hp] at h
    cases h
    exact ⟨pre, rfl, rfl⟩

/-- The pre-pass succeeds exactly on the `prePassOk` document shapes. -/
theorem prePass_ok_iff (data : Json) :
    (∃ l, prePass data = Except.ok l) ↔ prePassOk data = true := by
  cases data with
  | obj ms =>
    rw [prePass_obj]
    cases hg : dictGet ms "packages" with
    | none => simp [prePassOk, hg]
    | some v =>
      cases v with
      | obj pms => simpa [prePassOk, hg] using prePassMembers_ok_iff pms []
      | arr es => simp [prePassOk, hg]
      | str s => simp [prePassOk, hg]
      | num n => simp [prePassOk, hg]
      | bool b => simp [prePassOk, hg]
      | null => simp [prePassOk, hg]
  | arr es =>
    rw [prePass_arr]
    cases hb : (es.any fun e =>
        match e with
        | Json.str s => s == "packages"
        | _ => false) <;>
      simp [prePassOk, hb]
  | str s =>
    rw [prePass_str]
    cases hb : ((s.splitOn "packages").length != 1) <;>
      simp [prePassOk, hb, bne] at * <;> simp [*]
  | num n => simp [prePass, inTest, prePassOk]
  | bool b => simp [prePass, inTest, prePassOk]
  | null => simp [prePass, inTest, prePassOk]

mutual
/-- With at least `sizeOf j` units of fuel, the fuel-indexed walk does not
run out and computes exactly the unbounded walk: the recursion terminates
because each descent is into a strictly smaller subterm. -/
theorem walkFuel_eq : ∀ (j : Json) (n : Nat), sizeOf j ≤ n →
    ∀ path acc, walkFuel n j path acc = some (walk j path acc)
  | Json.obj ms, 0, hn, _, _ => by
      rw [Json.obj.sizeOf_spec] at hn
      omega
  | Json.obj ms, m + 1, hn, path, acc => by
      have hm : sizeOf ms ≤ m := by
        rw [Json.obj.sizeOf_spec] at hn
        omega
      exact walkFuelMembers_eq ms m hm path
        (if isEmptyStr (dictGet ms "version") then acc ++ [path] else acc)
  | Json.arr es, 0, hn, _, _ => by
      rw [Json.arr.sizeOf_spec] at hn
      omega
  | Json.arr es, m + 1, hn, path, acc => by
      have hm : sizeOf es ≤ m := by
        rw [Json.arr.sizeOf_spec] at hn
        omega
      exact walkFuelElems_eq es m hm path 0 acc
  | Json.str s, 0, hn, _, _ => by rw [Json.str.sizeOf_spec] at hn; omega
  | Json.str _, _ + 1, _, _, _ => rfl
  | Json.num n0, 0, hn, _, _ => by rw [Json.num.sizeOf_spec] at hn; omega
  | Json.num _, _ + 1, _, _, _ => rfl
  | Json.bool b, 0, hn, _, _ => by rw [Json.bool.sizeOf_spec] at hn; omega
  | Json.bool _, _ + 1, _, _, _ => rfl
  | Json.null, 0, hn, _, _ => by rw [Json.null.sizeOf_spec] at hn; omega
  | Json.null, _ + 1, _, _, _ => rfl

/-- Member loop of `walkFuel_eq`. -/
theorem walkFuelMembers_eq : ∀ (ms : List (String × Json)) (m : Nat),
    sizeOf ms ≤ m → ∀ path acc,
    walkFuelMembers m ms path acc = some (walkMembers ms path acc)
  | [], _, _, _, _ => rfl
  | (k, v) :: rest, m, hm, path, acc => by
      have e1 : sizeOf ((k, v) :: rest) = 1 + (1 + sizeOf k + sizeOf v) + sizeOf rest := rfl
      have hv : sizeOf v ≤ m := by omega
      have hr : sizeOf rest ≤ m := by omega
      show (match walkFuel m v (path ++ "." ++ k) acc with
            | none => none
            | some acc2 => walkFuelMembers m rest path acc2) =
          some (walkMembers rest path (walk v (path ++ "." ++ k) acc))
      rw [walkFuel_eq v m hv]
      exact walkFuelMembers_eq rest m hr path _

/-- Element loop of `walkFuel_eq`. -/
theorem walkFuelElems_eq : ∀ (es : List Json) (m : Nat),
    sizeOf es ≤ m → ∀ path idx acc,
    walkFuelElems m es path idx acc = some (walkElems es path idx acc)
  | [], _, _, _, _, _ => rfl
  | v :: rest, m, hm, path, idx, acc => by
      have e1 : sizeOf (v :: rest) = 1 + sizeOf v + sizeOf rest := rfl
      have hv : sizeOf v ≤ m := by omega
      have hr : sizeOf rest ≤ m := by omega
      show (match walkFuel m v (path ++ "[" ++ toString idx ++ "]") acc with
            | none => none
            | some acc2 => walkFuelElems m rest path (idx + 1) acc2) =
          some (walkElems rest path (idx + 1)
            (walk v (path ++ "[" ++ toString idx ++ "]") acc))
      rw [walkFuel_eq v m hv]
      exact walkFuelElems_eq rest m hr path (idx + 1) _
end

/-! ### Claims -/

/-- C1: for every JSON document, the recursive walk appends a path exactly
for the object nodes whose `version` member is the empty string, at any
depth, in pre-order depth-first order: the flag check of an object precedes
the recursion into its members in key order (path + `.` + key), and list
elements are visited in index order from 0 (path + `[` + index + `]`).  The
accumulator-passing source walk extends any accumulator by exactly the
spec-side pre-order flagged-path list (`run` invokes it with the root path
`"root"` and the pre-pass records as initial accumulator). -/
theorem c1_walk_preorder : ∀ (j : Json) (path : String) (acc : List String),
    walk j path acc = acc ++ specWalk j path :=
  walk_eq_spec

/-- C2 (counterexample): the claim fails as stated.  The document `42` is
valid JSON and contains zero objects with a `version` field equal to `""`,
yet the program does not print `total 0`: line 7 evaluates
`'packages' in 42`, which raises `TypeError` and aborts the run. -/
theorem c2_counterexample :
    hasEmptyVersion (Json.num 42) = false ∧
    run (Json.num 42) = Except.error PyError.typeError :=
  ⟨rfl, rfl⟩

/-- C2 (amended): for every valid JSON document on which the program
terminates normally and which contains zero objects with a `version` field
equal to the empty string, the entire output is the single line `total 0`. -/
theorem c2_total_zero (data : Json) (out : List String)
    (h1 : hasEmptyVersion data = false) (h2 : run data = Except.ok out) :
    out = ["total 0"] := by
  obtain ⟨pre, hpre, hout⟩ := run_ok_elim h2
  have hpre0 : pre = [] := prePass_nil data h1 pre hpre
  subst hpre0
  rw [walk_eq_spec, specWalk_nil data h1] at hout
  exact hout.trans rfl

/-- C2 (witness): Scenario 2's document `{"name": "x", "version": "1.0.0"}`
has no empty `version` and prints exactly `total 0`. -/
theorem c2_witness : (["total 0"] : List String) = ["total 0"] :=
  c2_total_zero (Json.obj [("name", Json.str "x"), ("version", Json.str "1.0.0")])
    ["total 0"] rfl rfl

/-- C3 (counterexample): the claim fails as stated.  The document `true` is
valid JSON, yet the program terminates abnormally: `'packages' in True`
raises `TypeError`, an error kind beyond missing-file and JSON-parse
failure. -/
theorem c3_counterexample : run (Json.bool true) = Except.error PyError.typeError :=
  rfl

/-- C3 (amended): after a successful parse, the program terminates normally
exactly on the `prePassOk` document shapes (root object whose `packages`
member, when present, is an object with only object members; root list with
no element equal to the string `packages`; root string not containing
`packages`); on every other valid JSON root the pre-pass raises `TypeError`
or `AttributeError`.  The recursive walk and the reporter never fail, so the
pre-pass is the only source of post-parse errors. -/
theorem c3_termination (data : Json) :
    (∃ out, run data = Except.ok out) ↔ prePassOk data = true :=
  (run_ok_iff data).trans (prePass_ok_iff data)

/-- C3 (witness): the object root `{"version": ""}` passes the pre-pass and
the run succeeds; instantiating the equivalence at it. -/
theorem c3_witness : prePassOk (Json.obj [("version", Json.str "")]) = true :=
  (c3_termination (Json.obj [("version", Json.str "")])).mp
    ⟨["root", "total 1"], rfl⟩

/-- C4: on `{"packages": {"node_modules/foo": {"version": ""}}}` the output
is the pre-pass line `packages[node_modules/foo]`, then the walk line
`root.packages.node_modules/foo`, then `total 2`. -/
theorem c4_scenario3 :
    run (Json.obj [("packages",
        Json.obj [("node_modules/foo", Json.obj [("version", Json.str "")])])]) =
      Except.ok ["packages[node_modules/foo]", "root.packages.node_modules/foo",
        "total 2"] :=
  rfl

/-- C5 (counterexample): the claim fails as stated.  In
`{"packages": {"a": 1, "b": {"version": ""}}}` the root's `packages` member
is an object, but its member `a` has a non-object shape; instead of
recording nothing for `a` and `packages[b]` for `b`, the program aborts:
`(1).get('version', None)` raises `AttributeError`. -/
theorem c5_counterexample :
    run (Json.obj [("packages",
        Json.obj [("a", Json.num 1), ("b", Json.obj [("version", Json.str "")])])]) =
      Except.error PyError.attributeError :=
  rfl

/-- C5 (amended): if the root object has a `packages` member that is an
object all of whose members are objects, the pre-pass records
`packages[<key>]` exactly for the members whose `version` field is the empty
string, in member order, and all pre-pass records precede all recursive-walk
records; a member of any non-object shape instead raises `AttributeError`
and aborts the program. -/
theorem c5_prepass (ms pms : List (String × Json))
    (h1 : dictGet ms "packages" = some (Json.obj pms))
    (h2 : (pms.all fun kv => isObjB kv.2) = true) :
    run (Json.obj ms) =
      Except.ok (report (prePassSpec pms ++ specWalk (Json.obj ms) "root")) := by
  have hpre : prePass (Json.obj ms) = Except.ok (prePassSpec pms) := by
    rw [prePass_obj, h1]
    simpa using prePassMembers_eq_spec pms h2 []
  rw [run, hpre]
  show Except.ok (report (walk (Json.obj ms) "root" (prePassSpec pms))) = _
  rw [walk_eq_spec]

/-- C5 (witness): instantiating the amended claim on Scenario 3's document,
whose only `packages` member is an object. -/
theorem c5_witness :
    run (Json.obj [("packages",
        Json.obj [("node_modules/foo", Json.obj [("version", Json.str "")])])]) =
      Except.ok (report
        (prePassSpec [("node_modules/foo", Json.obj [("version", Json.str "")])] ++
          specWalk (Json.obj [("packages",
            Json.obj [("node_modules/foo", Json.obj [("version", Json.str "")])])])
            "root")) :=
  c5_prepass _ _ rfl rfl

/-- C6: an object node is flagged exactly when its `version` member is the
string `""`: the source's test `obj.get('version', None) == ''` holds iff
the lookup yields exactly the empty string, equivalently the node's
pre-order contribution starts with its own path iff that condition holds;
in particular `" "` (single space, no trimming), `null`, a non-string
value, or a missing `version` member never flag. -/
theorem c6_exact_match :
    (∀ ms : List (String × Json),
      isEmptyStr (dictGet ms "version") = true ↔
        dictGet ms "version" = some (Json.str "")) ∧
    (∀ (ms : List (String × Json)) (path : String),
      specWalk (Json.obj ms) path = path :: specWalkMembers ms path ↔
        dictGet ms "version" = some (Json.str "")) ∧
    walk (Json.obj [("version", Json.str " ")]) "root" [] = [] ∧
    walk (Json.obj [("version", Json.null)]) "root" [] = [] ∧
    walk (Json.obj [("version", Json.num 0)]) "root" [] = [] ∧
    walk (Json.obj [("name", Json.str "x")]) "root" [] = [] ∧
    walk (Json.obj [("version", Json.str "")]) "root" [] = ["root"] := by
  refine ⟨fun ms => isEmptyStr_iff _, fun ms path => ?_, rfl, rfl, rfl, rfl, rfl⟩
  rw [← flags_iff]
  constructor
  · intro h
    cases hf : flagsEmptyVersion ms with
    | true => rfl
    | false =>
      rw [specWalk, hf] at h
      simp only [if_neg Bool.false_ne_true, List.nil_append] at h
      have := congrArg List.length h
      simp at this
  · intro hf
    rw [specWalk, hf, if_pos rfl]
    rfl

/-- C7: the reporter prints each flagged path on its own line in collection
order, then one final line `total <count>`, where the count equals the
number of lines printed before it. -/
theorem c7_reporter : ∀ e : List String,
    (report e).dropLast = e ∧
    (report e).getLast? = some ("total " ++ toString (report e).dropLast.length) := by
  intro e
  have h1 : (report e).dropLast = e := by
    rw [report]
    exact List.dropLast_concat
  refine ⟨h1, ?_⟩
  rw [h1, report, List.getLast?_concat]

/-- C8: the walk is deterministic and, the embedding being pure (the walk
consumes the document by value and returns only the flagged-path list),
side-effect-free on its input: two runs on the same document produce the
same flagged-path collection and the same printed lines. -/
theorem c8_deterministic : ∀ data : Json,
    walk data "root" [] = walk data "root" [] ∧
    ∀ out1 out2, run data = Except.ok out1 → run data = Except.ok out2 →
      out1 = out2 := by
  intro data
  refine ⟨rfl, fun o1 o2 h1 h2 => ?_⟩
  exact Except.ok.inj (h1.symm.trans h2)

/-- C8 (witness): two runs on `{"version": ""}` agree. -/
theorem c8_witness : (["root", "total 1"] : List String) = ["root", "total 1"] :=
  (c8_deterministic (Json.obj [("version", Json.str "")])).2
    ["root", "total 1"] ["root", "total 1"] rfl rfl

/-- C9: the recursive walk terminates on every finite JSON value; concretely,
`sizeOf j` units of fuel always suffice for the fuel-indexed walk, which then
computes the total walk's result, because every recursive call descends into
a strict subterm. -/
theorem c9_terminates : ∀ (j : Json) (path : String) (acc : List String),
    ∃ n, walkFuel n j path acc = some (walk j path acc) :=
  fun j path acc => ⟨sizeOf j, walkFuel_eq j (sizeOf j) le_rfl path acc⟩

/-- C10: the path encoding is not injective: in
`{"a.b": {"version": ""}, "a": {"b": {"version": ""}}}` two distinct
flagged objects (the member at top-level key `a.b`, and the member at key
`b` inside the object at key `a`) are both reported as `root.a.b`, because
keys are concatenated into the path without escaping. -/
theorem c10_path_collision :
    walk (Json.obj [("a.b", Json.obj [("version", Json.str "")]),
        ("a", Json.obj [("b", Json.obj [("version", Json.str "")])])]) "root" [] =
      ["root.a.b", "root.a.b"] ∧
    ¬ (walk (Json.obj [("a.b", Json.obj [("version", Json.str "")]),
        ("a", Json.obj [("b", Json.obj [("version", Json.str "")])])]) "root"
        []).Nodup :=
  ⟨rfl, by decide⟩

end FindVersionEmpty
